import Mathlib

/-!
Shallow embedding of the CodeCraft (ChiX) editor core: the tab/document
lifecycle (`chix/ui/tabs.py`), file operations (`chix/core/file_ops.py`),
the compiler wrapper (`chix/core/compiler.py`), the interpreter wrapper
(`chix/core/interpreter.py`) and the project manager (`chix/core/project.py`).

Filesystem state is modelled as an association list from path to content;
a write that can fail (disk full, permission error) is driven by an explicit
`WriteEv` event so that every exception path of the Python code has a
corresponding branch here.

Python string operations (`str.strip`, `str.lower`, `str.split`, `in`) are
given structurally recursive definitions over `List Char` so that every
definition evaluates by kernel reduction.
-/

namespace Chix

/-- ASCII lowercasing of one character (`str.lower`; the tokens searched
for by the compiler-output parser are pure ASCII). -/
def lowerChar (c : Char) : Char :=
  if 'A' ≤ c ∧ c ≤ 'Z' then Char.ofNat (c.toNat + 32) else c

/-- Whitespace as recognized by `str.strip`. -/
def isSpaceChar (c : Char) : Bool :=
  c = ' ' || c = '\t' || c = '\n' || c = '\r' || c = '\x0b' || c = '\x0c'

/-- `str.strip()` on the character list of a string. -/
def trimChars (l : List Char) : List Char :=
  ((l.dropWhile isSpaceChar).reverse.dropWhile isSpaceChar).reverse

/-- `s.split("\n")` on character lists: `""` splits to `[""]`,
`"a\nb"` to `["a", "b"]`. -/
def splitOnNl : List Char → List (List Char)
  | [] => [[]]
  | c :: rest =>
    if c = '\n' then [] :: splitOnNl rest
    else
      match splitOnNl rest with
      | [] => [[c]]
      | l :: ls => (c :: l) :: ls

/-- Whether `pat` is a prefix of `l` (Boolean, structural). -/
def isPrefixChars : List Char → List Char → Bool
  | [], _ => true
  | _ :: _, [] => false
  | a :: as, b :: bs => a = b && isPrefixChars as bs

/-- Python `pat in hay` substring test on character lists. -/
def containsSub (hay pat : List Char) : Bool :=
  match hay with
  | [] => isPrefixChars pat []
  | _ :: rest => isPrefixChars pat hay || containsSub rest pat

/-- `s.lower()` (ASCII). -/
def pyLower (s : String) : String := String.mk (s.toList.map lowerChar)

/-- `s.strip()`. -/
def pyTrim (s : String) : String := String.mk (trimChars s.toList)

/-- `s.split("\n")`. -/
def pySplitLines (s : String) : List String :=
  (splitOnNl s.toList).map String.mk

/-- Python `pat in s`. -/
def pyContains (s pat : String) : Bool := containsSub s.toList pat.toList

/-- A filesystem: association list from path to file content.  `fsSet`
prepends, `fsGet` takes the first match, so later writes shadow earlier
ones. -/
def FS : Type := List (String × String)

def fsGet (fs : FS) (p : String) : Option String :=
  match fs with
  | [] => none
  | (q, c) :: rest => if q = p then some c else fsGet rest p

def fsSet (fs : FS) (p c : String) : FS := (p, c) :: fs

/-- Whether a path exists in the filesystem (`os.path.exists`). -/
def fsExists (fs : FS) (p : String) : Bool := (fsGet fs p).isSome

/-- Outcome of a Python `open(path, "w")` / `f.write(content)` pair.
`ok`: the file now holds `content`.  `failOpen`: `open` itself raised, the
file is untouched.  `failWrite w`: `open` truncated the file and the write
raised after `w` characters were flushed. -/
inductive WriteEv
  | ok
  | failOpen
  | failWrite (written : String)
deriving DecidableEq

/-- `open(p, "w"); f.write(content)` under event `ev`: returns the new
filesystem and whether the write completed without an exception. -/
def fsWrite (fs : FS) (p content : String) (ev : WriteEv) : FS × Bool :=
  match ev with
  | .ok => (fsSet fs p content, true)
  | .failOpen => (fs, false)
  | .failWrite w => (fsSet fs p w, false)

/-- Python truthiness of an optional string (`if file_path:`): `None` and
the empty string are falsy. -/
def strTruthy : Option String → Bool
  | none => false
  | some s => s ≠ ""

end Chix

namespace Chix.Compiler

/-- `'tok' in line.lower()`, as in `Compiler._parse_compiler_output`
(`tok` is already lowercase in every call site). -/
def hasToken (line tok : String) : Bool :=
  pyContains (pyLower line) tok

/-- `xs[-1] += "\n" + line`: append `line` to the last element of a
non-empty list (identity on the empty list, which the source guards). -/
def appendToLast : List String → String → List String
  | [], _ => []
  | [x], line => [x ++ "\n" ++ line]
  | x :: y :: rest, line => x :: appendToLast (y :: rest) line

/-- One iteration of the `for line in lines` loop of
`Compiler._parse_compiler_output`: blank lines are skipped; `warning:`
lines are pushed onto `warnings`; otherwise `error:` lines onto `errors`;
otherwise `note:` lines are appended to the last error if any error was
seen, else to the last warning if any; every other line falls through the
`if/elif` chain with no effect. -/
def parseStep (acc : List String × List String) (line : String) :
    List String × List String :=
  let warnings := acc.1
  let errors := acc.2
  if pyTrim line = "" then acc
  else if hasToken line "warning:" then (warnings ++ [line], errors)
  else if hasToken line "error:" then (warnings, errors ++ [line])
  else if hasToken line "note:" then
    match errors with
    | _ :: _ => (warnings, appendToLast errors line)
    | [] =>
      match warnings with
      | _ :: _ => (appendToLast warnings line, errors)
      | [] => acc
  else acc

/-- `Compiler._parse_compiler_output`: strip the output, split on newlines
and run the classification loop, returning `(warnings, errors)`. -/
def parseCompilerOutput (output : String) : List String × List String :=
  (pySplitLines (pyTrim output)).foldl parseStep ([], [])

end Chix.Compiler

namespace Chix

/-- `os.path.basename`: the component after the last `/` (POSIX). -/
def basenameChars (l : List Char) : List Char :=
  (l.reverse.takeWhile (· ≠ '/')).reverse

/-- `os.path.splitext(b)[0]` for a path component `b`: everything before
the last `.`, except that leading dots never start an extension
(`splitext(".bashrc") = (".bashrc", "")`). -/
def stemChars (b : List Char) : List Char :=
  let lead := b.takeWhile (· = '.')
  let rest := b.drop lead.length
  if rest.contains '.' then
    lead ++ (((rest.reverse.dropWhile (· ≠ '.')).drop 1).reverse)
  else b

/-- `os.path.splitext(os.path.basename(s))[0]`. -/
def splitextBase (s : String) : String :=
  String.mk (stemChars (basenameChars s.toList))

/-- Deletion of a path (`os.remove` / `os.unlink`). -/
def fsDel (fs : FS) (p : String) : FS := fs.filter fun e => e.1 ≠ p

/-- `file_ops._create_backup`: copies `path` to `path + ".bak"` when
`path` exists; any exception is swallowed and `None` returned.  `copyOk`
drives the `shutil.copy2` outcome.  Returns the new filesystem and the
backup path (or `none`). -/
def createBackup (fs : FS) (path : String) (copyOk : Bool) :
    FS × Option String :=
  match fsGet fs path with
  | none => (fs, none)
  | some orig =>
    if copyOk then (fsSet fs (path ++ ".bak") orig, some (path ++ ".bak"))
    else (fs, none)

/-- `file_ops._restore_from_backup`: copies the backup over `path` and
removes the backup; returns `False` (leaving the filesystem unchanged)
when there is no backup or the copy fails. -/
def restoreFromBackup (fs : FS) (backupPath : Option String) (path : String)
    (copyOk : Bool) : FS × Bool :=
  match backupPath with
  | none => (fs, false)
  | some bp =>
    match fsGet fs bp with
    | none => (fs, false)
    | some saved =>
      if copyOk then (fsDel (fsSet fs path saved) bp, true)
      else (fs, false)

/-- `file_ops.save_file` on an editor with buffer `content` and a truthy
`path`: create a backup (best effort), write the buffer over the file,
and on a write exception restore the original from the backup.  Returns
the final filesystem and the boolean result. -/
def fileOpsSaveFile (fs : FS) (path content : String) (backupOk : Bool)
    (ev : WriteEv) (restoreOk : Bool) : FS × Bool :=
  let b := createBackup fs path backupOk
  let w := fsWrite b.1 path content ev
  if w.2 then (w.1, true)
  else ((restoreFromBackup w.1 b.2 path restoreOk).1, false)

/-- One open document, the per-tab data stored in `TabView.tabs`
(`tabs.py`): the tab's file path (`None` for untitled), the editor buffer
content, and the modified flag.  GUI-only fields (widgets, minimap,
temp id) are not part of the model. -/
structure Tab where
  filePath : Option String
  content : String
  modified : Bool
deriving DecidableEq

/-- The `TabView` state (`tabs.py`): `tabs` is the ordered id-to-document
mapping (Python dict, insertion ordered), `tabCounter` feeds fresh ids
(`f"tab_{self.tab_counter}"`; since the `"tab_"` prefix is constant, ids
are modelled by their counter value), `currentTabId` is the active tab. -/
structure TabView where
  tabs : List (Nat × Tab)
  tabCounter : Nat
  currentTabId : Option Nat
deriving DecidableEq

namespace TabView

/-- The keys of the tab mapping, in display order. -/
def keys (tabs : List (Nat × Tab)) : List Nat := tabs.map Prod.fst

/-- Dict lookup `self.tabs[tab_id]` / membership `tab_id in self.tabs`. -/
def lookupTab (tabs : List (Nat × Tab)) (tabId : Nat) : Option Tab :=
  match tabs with
  | [] => none
  | (i, t) :: rest => if i = tabId then some t else lookupTab rest tabId

/-- Field update of one tab's record (`self.tabs[tab_id][...] = ...`). -/
def updateTab (tabs : List (Nat × Tab)) (tabId : Nat) (f : Tab → Tab) :
    List (Nat × Tab) :=
  tabs.map fun e => if e.1 = tabId then (e.1, f e.2) else e

/-- `TabView.select_tab`: a no-op when the id is absent, otherwise makes
the tab current (widget packing and state-dict updates are GUI-only). -/
def selectTab (tv : TabView) (tabId : Nat) : TabView :=
  if tabId ∈ keys tv.tabs then { tv with currentTabId := some tabId }
  else tv

/-- `TabView.mark_tab_modified`. -/
def markModified (tv : TabView) (tabId : Nat) (m : Bool) : TabView :=
  { tv with tabs := updateTab tv.tabs tabId fun t => { t with modified := m } }

/-- The buffer-initialization logic of `TabView.create_tab`: a truthy
`content` argument wins; otherwise a truthy, existing `file_path` is
loaded from disk; otherwise the buffer stays empty. -/
def initialContent (fs : FS) (filePath content : Option String) : String :=
  if strTruthy content then content.getD ""
  else if strTruthy filePath ∧ fsExists fs (filePath.getD "") then
    (fsGet fs (filePath.getD "")).getD ""
  else ""

/-- `TabView.create_tab(file_path, content)`: allocates the next id,
initializes the buffer, appends the tab with `modified = False`, and
selects it.  Returns the updated view and the new tab's id. -/
def createTab (tv : TabView) (fs : FS) (filePath : Option String)
    (content : Option String) : TabView × Nat :=
  let tabId := tv.tabCounter
  let tab : Tab :=
    { filePath := filePath, content := initialContent fs filePath content,
      modified := false }
  let tv' : TabView :=
    { tv with tabs := tv.tabs ++ [(tabId, tab)], tabCounter := tv.tabCounter + 1 }
  (tv'.selectTab tabId, tabId)

/-- `TabView.save_tab_as` together with `file_ops.save_file_as`:
`promptPath` is the result of the save dialog (falsy on cancel), `ev`
drives the write.  On a successful write the tab's path is updated and the
modified flag cleared; otherwise the tab is untouched.  Returns
`(view, filesystem, success)`. -/
def saveTabAs (tv : TabView) (fs : FS) (tabId : Nat)
    (promptPath : Option String) (ev : WriteEv) : TabView × FS × Bool :=
  match lookupTab tv.tabs tabId with
  | none => (tv, fs, false)
  | some tab =>
    if strTruthy promptPath then
      let p := promptPath.getD ""
      let (fs', okW) := fsWrite fs p tab.content ev
      if okW then
        let tv' : TabView :=
          { tv with tabs := updateTab tv.tabs tabId fun t => { t with filePath := some p } }
        (tv'.markModified tabId false, fs', true)
      else (tv, fs', false)
    else (tv, fs, false)

/-- `TabView.save_tab`: with a truthy file path the buffer is written
directly over the file (`open(path, "w")`, no backup); on success the
modified flag is cleared, on an exception the method returns `False`.
With no (or an empty) path it delegates to `save_tab_as`. -/
def saveTab (tv : TabView) (fs : FS) (tabId : Nat) (ev : WriteEv)
    (promptPath : Option String) (evAs : WriteEv) : TabView × FS × Bool :=
  match lookupTab tv.tabs tabId with
  | none => (tv, fs, false)
  | some tab =>
    if strTruthy tab.filePath then
      let p := tab.filePath.getD ""
      let (fs', okW) := fsWrite fs p tab.content ev
      if okW then (tv.markModified tabId false, fs', true)
      else (tv, fs', false)
    else tv.saveTabAs fs tabId promptPath evAs

/-- The removal half of `TabView.close_tab` (after the optional save):
delete the tab; if it was current, select the first remaining tab in
display order, creating a fresh empty tab when none remains. -/
def removeAndReselect (tv : TabView) (fs : FS) (tabId : Nat) : TabView × FS :=
  let remaining := tv.tabs.filter fun e => e.1 ≠ tabId
  let tv2 : TabView := { tv with tabs := remaining }
  if tv.currentTabId = some tabId then
    match remaining with
    | (nextId, _) :: _ => (tv2.selectTab nextId, fs)
    | [] =>
      let tv3 : TabView := { tv2 with currentTabId := none }
      ((tv3.createTab fs none none).1, fs)
  else (tv2, fs)

/-- `TabView.close_tab`: absent ids are ignored.  If the tab is modified
and the user answers yes to the save prompt (`saveYes`), `save_tab` runs
first.  The tab is then removed; if it was current, the first remaining
tab (in display order) is selected, and if none remains a fresh empty tab
is created. -/
def closeTab (tv : TabView) (fs : FS) (tabId : Nat) (saveYes : Bool)
    (ev : WriteEv) (promptPath : Option String) (evAs : WriteEv) :
    TabView × FS :=
  match lookupTab tv.tabs tabId with
  | none => (tv, fs)
  | some tab =>
    let saved : TabView × FS × Bool :=
      if tab.modified ∧ saveYes then tv.saveTab fs tabId ev promptPath evAs
      else (tv, fs, false)
    removeAndReselect saved.1 saved.2.1 tabId

/-- `TabView.open_file`'s scan `for tab_id, tab_data in self.tabs.items():
if tab_data["file_path"] == file_path`. -/
def findTabByPath (tabs : List (Nat × Tab)) (p : String) : Option Nat :=
  match tabs with
  | [] => none
  | (i, t) :: rest => if t.filePath = some p then some i else findTabByPath rest p

/-- `TabView.open_file`: select the existing tab holding this path if there
is one, otherwise create a new tab loading the file. -/
def openFile (tv : TabView) (fs : FS) (p : String) : TabView × Nat :=
  match findTabByPath tv.tabs p with
  | some tabId => (tv.selectTab tabId, tabId)
  | none => tv.createTab fs (some p) none

/-- The `TabCollection` invariant of the spec, which every state reachable
through the GUI satisfies: the collection is non-empty and the active id
is a key present in the mapping. -/
def Inv (tv : TabView) : Prop :=
  tv.tabs ≠ [] ∧ ∃ id, tv.currentTabId = some id ∧ id ∈ keys tv.tabs

/-- How many tabs carry the file path `q`. -/
def pathCount (tabs : List (Nat × Tab)) (q : String) : Nat :=
  (tabs.filter fun e => e.2.filePath = some q).length

end TabView

/-- One `create_tab`/`close_tab` call, with the environment events a close
may consume (save prompt answer, write outcomes, save-as dialog result). -/
inductive TabOp
  | create (filePath : Option String) (content : Option String)
  | close (tabId : Nat) (saveYes : Bool) (ev : WriteEv)
      (promptPath : Option String) (evAs : WriteEv)

/-- Run one operation against the view and filesystem. -/
def applyOp (tv : TabView) (fs : FS) : TabOp → TabView × FS
  | .create fp c => ((tv.createTab fs fp c).1, fs)
  | .close tabId sy ev pp evAs => tv.closeTab fs tabId sy ev pp evAs

/-- Run a sequence of operations. -/
def applyOps (tv : TabView) (fs : FS) : List TabOp → TabView × FS
  | [] => (tv, fs)
  | op :: rest =>
    let s := applyOp tv fs op
    applyOps s.1 s.2 rest

end Chix

namespace Chix.Compiler

/-- `CompilationResult` (`compiler.py`): `executablePath` is `None` unless
compilation succeeded. -/
structure CompilationResult where
  success : Bool
  message : String
  executablePath : Option String
  warnings : List String
  errors : List String
deriving DecidableEq

/-- `self.temp_dir = os.path.join(tempfile.gettempdir(), "chix_compiler")`
on a POSIX system. -/
def compilerTempDir : String := "/tmp/chix_compiler"

/-- The default output path when none is supplied (non-Windows branch):
`os.path.join(self.temp_dir, base_name)` with
`base_name = os.path.splitext(os.path.basename(source_path))[0]`. -/
def defaultOutputPath (sourcePath : String) : String :=
  compilerTempDir ++ "/" ++ splitextBase sourcePath

/-- What the spawned compiler subprocess did: the spawn raised, the 10 s
wall-clock timeout fired, or the process exited with a code and stderr. -/
inductive CompileOutcome
  | spawnError (msg : String)
  | timeout
  | exited (exitCode : Int) (stderrText : String)

/-- `Compiler.compile(source_path, output_path, options)`.  Environment
facts that the Python code reads from the OS are explicit arguments:
`compilerPath` (the detection cache), `sourceExists`
(`os.path.exists(source_path)`), `prevExecExists` / `removeOk` (presence
of a previous executable at the resolved output path and whether
`os.remove` succeeds on it), and `outcome` for the subprocess itself. -/
def compile (compilerPath : Option String) (sourceExists : Bool)
    (sourcePath : String) (outputPathArg : Option String)
    (prevExecExists : Bool) (removeOk : Bool) (outcome : CompileOutcome) :
    CompilationResult :=
  if compilerPath.isNone then
    ⟨false, "No C compiler detected. Please install GCC, Clang, or TCC.",
      none, [], ["Compiler not found"]⟩
  else if !sourceExists then
    ⟨false, "Source file not found: " ++ sourcePath, none, [],
      ["Source file not found"]⟩
  else
    let outputPath :=
      if strTruthy outputPathArg then outputPathArg.getD ""
      else defaultOutputPath sourcePath
    if prevExecExists ∧ !removeOk then
      ⟨false, "Could not remove previous executable", none, [],
        ["Failed to remove old executable"]⟩
    else
      match outcome with
      | .spawnError msg =>
        ⟨false, "Compilation process error: " ++ msg, none, [],
          ["Process error: " ++ msg]⟩
      | .timeout =>
        ⟨false, "Compilation timed out after 10 seconds", none, [],
          ["Compilation process timed out"]⟩
      | .exited exitCode stderrText =>
        let parsed := parseCompilerOutput stderrText
        if exitCode = 0 then
          ⟨true, "Compilation successful", some outputPath, parsed.1, []⟩
        else
          ⟨false, "Compilation failed with errors", none, parsed.1, parsed.2⟩

end Chix.Compiler

namespace Chix.Interpreter

/-- `InterpretationResult` (`interpreter.py`). -/
structure InterpretationResult where
  success : Bool
  output : String
  errors : List String
deriving DecidableEq

/-- State of the fixed temp file
`os.path.join(self.temp_dir, "temp_program.c")` after the
`open/f.write(code)` step of `interpret_code`, plus whether the write
completed: on `ok` the file holds `code`; a raising `open` leaves the
previous state; a raising `write` leaves a truncated partial file. -/
def tempFileAfterWrite (prevTemp : Option String) (code : String) :
    WriteEv → Option String × Bool
  | .ok => (some code, true)
  | .failOpen => (prevTemp, false)
  | .failWrite w => (some w, false)

/-- `Interpreter.interpret_code(code)`: write `code` to the fixed temp
file, run `interpret_file` on it (which catches its own exceptions and
returns `runRes`), then `os.remove` the temp file; the `except` branch
removes the temp file if it exists and reports the exception (`errStr`).
`os.remove` on an existing file is modelled as succeeding.  Returns the
final temp-file state and the result. -/
def interpretCode (prevTemp : Option String) (code : String) (ev : WriteEv)
    (errStr : String) (runRes : InterpretationResult) :
    Option String × InterpretationResult :=
  let w := tempFileAfterWrite prevTemp code ev
  if w.2 then
    (none, runRes)
  else
    let cleaned : Option String :=
      match w.1 with
      | some _ => none
      | none => none
    (cleaned, ⟨false, "Interpretation error: " ++ errStr, [errStr]⟩)

end Chix.Interpreter

namespace Chix.Project

/-- The parsed sidecar record `<project>/.chix/project.json`: the
`settings` map and the `recent_files` list. -/
structure ProjectConfigRec where
  settings : List (String × String)
  recentFiles : List String
deriving DecidableEq

/-- The filesystem facts `ProjectManager.open_project` consults:
whether the argument is a directory, what loading the sidecar config
yields (`none` = no config file; `some none` = present but `json.load`
or the subsequent block raised; `some (some cfg)` = loaded), whether a
`main_panel` is registered in the shared state, and which paths exist
(for the `os.path.exists(full_path)` check on the recent file). -/
structure PMEnv where
  isDir : Bool
  configLoad : Option (Option ProjectConfigRec)
  hasMainPanel : Bool
  existingFiles : List String
deriving DecidableEq

/-- The observable outcome of `ProjectManager.open_project`: the boolean
return, which file (if any) was opened in the tab view, which settings
map was applied onto the shared state, the recorded current project, and
whether a fresh default config was created. -/
structure PMResult where
  ok : Bool
  openedFile : Option String
  appliedSettings : Option (List (String × String))
  currentProject : Option String
  configCreated : Bool
deriving DecidableEq

/-- `os.path.join(project_path, recent)` for a relative `recent`. -/
def joinPath (a b : String) : String := a ++ "/" ++ b

/-- `ProjectManager.open_project(project_path)`: `False` for a
non-directory; otherwise the project path is recorded, a loadable config
applies its settings and opens `recent_files[0]` when the list is
non-empty, a `main_panel` is present and the joined path exists; a
missing or unloadable config leads to `_create_project_config` and
`True`. -/
def openProject (env : PMEnv) (projectPath : String) : PMResult :=
  if !env.isDir then ⟨false, none, none, none, false⟩
  else
    match env.configLoad with
    | some (some cfg) =>
      let opened : Option String :=
        if env.hasMainPanel ∧ cfg.recentFiles ≠ [] then
          let full := joinPath projectPath (cfg.recentFiles.headD "")
          if full ∈ env.existingFiles then some full else none
        else none
      ⟨true, opened, some cfg.settings, some projectPath, false⟩
    | some none =>
      ⟨true, none, none, some projectPath, true⟩
    | none =>
      ⟨true, none, none, some projectPath, true⟩

end Chix.Project

/-! ## Supporting lemmas -/

namespace Chix.Compiler

/-- `appendToLast` rewrites the last element of a non-empty list. -/
theorem appendToLast_eq (xs : List String) (line : String) (h : xs ≠ []) :
    appendToLast xs line = xs.dropLast ++ [xs.getLastD "" ++ "\n" ++ line] := by
  induction xs with
  | nil => exact absurd rfl h
  | cons x rest ih =>
    cases rest with
    | nil => simp [appendToLast]
    | cons y ys =>
      simp only [appendToLast, List.dropLast_cons₂, List.cons_append]
      rw [ih (by simp)]
      simp [List.getLastD_cons]

end Chix.Compiler

namespace Chix

/-- `fileOpsSaveFile` write-failure round trip: when the backup copy and
the restore copy both succeed, a failed `file_ops.save_file` leaves the
on-disk content of an existing file unchanged. -/
theorem fileOpsSaveFile_restores (fs : FS) (path content : String)
    (ev : WriteEv) (hex : fsExists fs path = true)
    (hfail : (fileOpsSaveFile fs path content true ev true).2 = false) :
    fsGet (fileOpsSaveFile fs path content true ev true).1 path
      = fsGet fs path := by
  have hne : path ≠ path ++ ".bak" := by
    intro hcontra
    have := congrArg String.length hcontra
    simp [String.length_append] at this
    exact absurd this (by decide)
  obtain ⟨orig, horig⟩ : ∃ c, fsGet fs path = some c := by
    cases hfs : fsGet fs path with
    | none => simp [fsExists, hfs] at hex
    | some c => exact ⟨c, rfl⟩
  cases ev with
  | ok => simp [fileOpsSaveFile, fsWrite] at hfail
  | failOpen =>
    simp [fileOpsSaveFile, createBackup, horig, fsWrite, restoreFromBackup,
      fsGet, fsSet, fsDel, hne, Ne.symm hne, horig]
  | failWrite w =>
    simp [fileOpsSaveFile, createBackup, horig, fsWrite, restoreFromBackup,
      fsGet, fsSet, fsDel, hne, Ne.symm hne, horig]

end Chix

namespace Chix.TabView

theorem keys_updateTab (tabs : List (Nat × Tab)) (tabId : Nat) (f : Tab → Tab) :
    keys (updateTab tabs tabId f) = keys tabs := by
  simp only [keys, updateTab, List.map_map]
  refine List.map_congr_left fun e _ => ?_
  by_cases h : e.1 = tabId <;> simp [h]

theorem selectTab_tabs (tv : TabView) (tabId : Nat) :
    (tv.selectTab tabId).tabs = tv.tabs := by
  unfold selectTab; split <;> rfl

theorem selectTab_tabCounter (tv : TabView) (tabId : Nat) :
    (tv.selectTab tabId).tabCounter = tv.tabCounter := by
  unfold selectTab; split <;> rfl

theorem selectTab_current_of_mem (tv : TabView) (tabId : Nat)
    (h : tabId ∈ keys tv.tabs) :
    (tv.selectTab tabId).currentTabId = some tabId := by
  simp [selectTab, h]

theorem lookupTab_eq_none_iff (tabs : List (Nat × Tab)) (tabId : Nat) :
    lookupTab tabs tabId = none ↔ tabId ∉ keys tabs := by
  induction tabs with
  | nil => simp [lookupTab, keys]
  | cons e rest ih =>
    by_cases h : e.1 = tabId <;>
      simp [lookupTab, keys, h, ih, eq_comm (a := tabId)]

theorem lookupTab_exists_of_mem (tabs : List (Nat × Tab)) (tabId : Nat)
    (h : tabId ∈ keys tabs) : ∃ t, lookupTab tabs tabId = some t := by
  cases hlk : lookupTab tabs tabId with
  | none => exact absurd h ((lookupTab_eq_none_iff tabs tabId).mp hlk)
  | some t => exact ⟨t, rfl⟩

theorem lookupTab_updateTab (tabs : List (Nat × Tab)) (tabId : Nat)
    (f : Tab → Tab) :
    lookupTab (updateTab tabs tabId f) tabId
      = (lookupTab tabs tabId).map f := by
  induction tabs with
  | nil => rfl
  | cons e rest ih =>
    show lookupTab ((if e.1 = tabId then (e.1, f e.2) else e)
        :: updateTab rest tabId f) tabId = _
    by_cases h : e.1 = tabId
    · rw [if_pos h]
      simp [lookupTab, h]
    · rw [if_neg h]
      simp [lookupTab, h, ih]

theorem saveTabAs_pres (tv : TabView) (fs : FS) (tabId : Nat)
    (pp : Option String) (ev : WriteEv) :
    keys (tv.saveTabAs fs tabId pp ev).1.tabs = keys tv.tabs ∧
    (tv.saveTabAs fs tabId pp ev).1.currentTabId = tv.currentTabId ∧
    (tv.saveTabAs fs tabId pp ev).1.tabCounter = tv.tabCounter := by
  unfold saveTabAs
  cases hlk : lookupTab tv.tabs tabId with
  | none => simp
  | some tab =>
    by_cases hp : strTruthy pp = true
    · cases ev <;> simp [hp, fsWrite, markModified, keys_updateTab]
    · simp [hp]

theorem saveTab_pres (tv : TabView) (fs : FS) (tabId : Nat) (ev : WriteEv)
    (pp : Option String) (evAs : WriteEv) :
    keys (tv.saveTab fs tabId ev pp evAs).1.tabs = keys tv.tabs ∧
    (tv.saveTab fs tabId ev pp evAs).1.currentTabId = tv.currentTabId ∧
    (tv.saveTab fs tabId ev pp evAs).1.tabCounter = tv.tabCounter := by
  unfold saveTab
  cases hlk : lookupTab tv.tabs tabId with
  | none => simp
  | some tab =>
    by_cases hp : strTruthy tab.filePath = true
    · cases ev <;> simp [hp, fsWrite, markModified, keys_updateTab]
    · simpa [hp] using saveTabAs_pres tv fs tabId pp evAs

theorem savedStep_pres (tv : TabView) (fs : FS) (tabId : Nat) (ev : WriteEv)
    (pp : Option String) (evAs : WriteEv) (P : Prop) [Decidable P] :
    keys ((if P then tv.saveTab fs tabId ev pp evAs
        else (tv, fs, false)).1).tabs = keys tv.tabs ∧
    ((if P then tv.saveTab fs tabId ev pp evAs
        else (tv, fs, false)).1).currentTabId = tv.currentTabId ∧
    ((if P then tv.saveTab fs tabId ev pp evAs
        else (tv, fs, false)).1).tabCounter = tv.tabCounter := by
  split
  · exact saveTab_pres tv fs tabId ev pp evAs
  · exact ⟨rfl, rfl, rfl⟩

theorem createTab_tabs_eq (tv : TabView) (fs : FS) (fp c : Option String) :
    (tv.createTab fs fp c).1.tabs
      = tv.tabs ++ [(tv.tabCounter,
          Tab.mk fp (initialContent fs fp c) false)] := by
  simp [createTab, selectTab_tabs]

theorem createTab_current (tv : TabView) (fs : FS) (fp c : Option String) :
    (tv.createTab fs fp c).1.currentTabId = some tv.tabCounter := by
  unfold createTab
  exact selectTab_current_of_mem _ _ (by simp [keys])

theorem createTab_counter (tv : TabView) (fs : FS) (fp c : Option String) :
    (tv.createTab fs fp c).1.tabCounter = tv.tabCounter + 1 := by
  simp [createTab, selectTab_tabCounter]

theorem createTab_tabs_none_none (tv : TabView) (fs : FS) :
    (tv.createTab fs none none).1.tabs
      = tv.tabs ++ [(tv.tabCounter, Tab.mk none "" false)] := by
  simp [createTab, selectTab_tabs, initialContent, strTruthy]

theorem keys_filter_ne (tabs : List (Nat × Tab)) (tabId : Nat) :
    keys (tabs.filter fun e => e.1 ≠ tabId)
      = (keys tabs).filter fun k => k ≠ tabId := by
  induction tabs with
  | nil => rfl
  | cons e rest ih =>
    by_cases h : e.1 = tabId <;>
      simpa [keys, List.filter_cons, h] using ih

theorem filter_ne_nonempty (l : List Nat) (x : Nat) (hnd : l.Nodup)
    (hlen : 2 ≤ l.length) : l.filter (fun k => k ≠ x) ≠ [] := by
  cases l with
  | nil => simp at hlen
  | cons a l' =>
    cases l' with
    | nil => simp at hlen
    | cons b rest =>
      intro hemp
      have hforall := List.filter_eq_nil_iff.mp hemp
      have ha : a = x := by
        have := hforall a (by simp)
        simpa using this
      have hb : b = x := by
        have := hforall b (by simp)
        simpa using this
      have hab : a ≠ b := by
        have hn := List.nodup_cons.mp hnd
        exact fun hh => hn.1 (hh ▸ List.mem_cons_self b rest)
      exact hab (ha.trans hb.symm)

theorem eq_singleton_of_keys_singleton (tabs : List (Nat × Tab)) (i : Nat)
    (h : keys tabs = [i]) : ∃ t, tabs = [(i, t)] := by
  cases tabs with
  | nil => simp [keys] at h
  | cons e rest =>
    simp only [keys, List.map_cons, List.cons.injEq] at h
    obtain ⟨h1, h2⟩ := h
    have hrest : rest = [] := List.map_eq_nil_iff.mp h2
    exact ⟨e.2, by simp [hrest, ← h1]⟩

theorem createTab_inv (tv : TabView) (fs : FS) (fp c : Option String) :
    Inv (tv.createTab fs fp c).1 := by
  have hs := createTab_tabs_eq tv fs fp c
  exact ⟨by simp [hs], tv.tabCounter, createTab_current tv fs fp c,
    by simp [hs, keys]⟩

theorem removeAndReselect_inv (tv : TabView) (fs : FS) (tabId : Nat)
    (h : Inv tv) : Inv (removeAndReselect tv fs tabId).1 := by
  obtain ⟨hne, cid, hcid, hmem⟩ := h
  by_cases hcur : tv.currentTabId = some tabId
  · cases hfil : tv.tabs.filter (fun e => e.1 ≠ tabId) with
    | nil =>
      simp only [removeAndReselect, hfil, if_pos hcur]
      exact createTab_inv _ _ _ _
    | cons e rest =>
      obtain ⟨nid, t⟩ := e
      simp only [removeAndReselect, hfil, if_pos hcur]
      refine ⟨by simp [selectTab_tabs], nid, ?_, ?_⟩
      · exact selectTab_current_of_mem _ _ (by simp [keys])
      · simp [selectTab_tabs, keys]
  · have hcne : cid ≠ tabId := fun hh => hcur (hh ▸ hcid)
    simp only [removeAndReselect, if_neg hcur]
    refine ⟨?_, cid, hcid, ?_⟩
    · intro hnil
      have hproj : tv.tabs.filter (fun e => e.1 ≠ tabId) = [] := hnil
      have : cid ∈ keys (tv.tabs.filter fun e => e.1 ≠ tabId) := by
        rw [keys_filter_ne]
        exact List.mem_filter.mpr ⟨hmem, by simp [hcne]⟩
      rw [hproj] at this
      simp [keys] at this
    · rw [keys_filter_ne]
      exact List.mem_filter.mpr ⟨hmem, by simp [hcne]⟩

theorem closeTab_inv (tv : TabView) (fs : FS) (tabId : Nat) (sy : Bool)
    (ev : WriteEv) (pp : Option String) (evAs : WriteEv) (h : Inv tv) :
    Inv (tv.closeTab fs tabId sy ev pp evAs).1 := by
  unfold closeTab
  cases hlk : lookupTab tv.tabs tabId with
  | none => simpa using h
  | some tab =>
    apply removeAndReselect_inv
    obtain ⟨hk, hc, _⟩ :=
      savedStep_pres tv fs tabId ev pp evAs (tab.modified = true ∧ sy = true)
    obtain ⟨hne, cid, hcid, hmem⟩ := h
    refine ⟨?_, cid, by rw [hc]; exact hcid, by rw [hk]; exact hmem⟩
    intro hnil
    rw [hnil] at hk
    simp only [keys, List.map_nil] at hk
    exact hne (List.map_eq_nil_iff.mp hk.symm)

theorem applyOp_inv (tv : TabView) (fs : FS) (op : TabOp) (h : Inv tv) :
    Inv (applyOp tv fs op).1 := by
  cases op with
  | create fp c => exact createTab_inv tv fs fp c
  | close tabId sy ev pp evAs => exact closeTab_inv tv fs tabId sy ev pp evAs h

theorem applyOps_inv (ops : List TabOp) :
    ∀ tv fs, Inv tv → Inv (applyOps tv fs ops).1 := by
  induction ops with
  | nil => intro tv fs h; exact h
  | cons op rest ih =>
    intro tv fs h
    exact ih _ _ (applyOp_inv tv fs op h)

theorem closeTab_singleton (tv : TabView) (fs : FS) (tabId : Nat) (tab : Tab)
    (sy : Bool) (ev : WriteEv) (pp : Option String) (evAs : WriteEv)
    (h : Inv tv) (hsing : tv.tabs = [(tabId, tab)]) :
    (tv.closeTab fs tabId sy ev pp evAs).1.tabs
      = [(tv.tabCounter, Tab.mk none "" false)] := by
  obtain ⟨hne, cid, hcid, hmem⟩ := h
  have hcidId : cid = tabId := by
    rw [hsing] at hmem; simpa [keys] using hmem
  have hlk : lookupTab tv.tabs tabId = some tab := by
    simp [hsing, lookupTab]
  unfold closeTab
  rw [hlk]
  obtain ⟨hk, hc, hn⟩ :=
    savedStep_pres tv fs tabId ev pp evAs (tab.modified = true ∧ sy = true)
  set sav := if tab.modified = true ∧ sy = true
    then tv.saveTab fs tabId ev pp evAs else (tv, fs, false) with hsav
  have hkeys : keys sav.1.tabs = [tabId] := by
    rw [hk, hsing]; rfl
  obtain ⟨t', ht'⟩ := eq_singleton_of_keys_singleton sav.1.tabs tabId hkeys
  have hcur : sav.1.currentTabId = some tabId := by
    rw [hc, hcid, hcidId]
  have hfil : sav.1.tabs.filter (fun e => e.1 ≠ tabId) = [] := by
    simp [ht']
  simp only [removeAndReselect, hfil, if_pos hcur]
  rw [createTab_tabs_none_none]
  simp [hfil]
  exact hn

theorem removeAndReselect_spec (tv : TabView) (fs : FS) (tabId : Nat)
    (hrem : tv.tabs.filter (fun e => e.1 ≠ tabId) ≠ []) :
    ((tv.currentTabId ≠ some tabId →
        (removeAndReselect tv fs tabId).1.currentTabId = tv.currentTabId) ∧
     (tv.currentTabId = some tabId →
        (removeAndReselect tv fs tabId).1.currentTabId
          = ((keys tv.tabs).filter fun k => k ≠ tabId).head?) ∧
     keys (removeAndReselect tv fs tabId).1.tabs
        = (keys tv.tabs).filter fun k => k ≠ tabId) := by
  by_cases hcur : tv.currentTabId = some tabId
  · cases hfil : tv.tabs.filter (fun e => e.1 ≠ tabId) with
    | nil => exact absurd hfil hrem
    | cons e rest =>
      obtain ⟨nid, t⟩ := e
      refine ⟨fun hc => absurd hcur hc, fun _ => ?_, ?_⟩
      · simp only [removeAndReselect, hfil, if_pos hcur]
        rw [selectTab_current_of_mem _ _ (by simp [keys])]
        rw [← keys_filter_ne, hfil]
        simp [keys]
      · simp only [removeAndReselect, hfil, if_pos hcur]
        rw [selectTab_tabs, ← keys_filter_ne, hfil]
  · refine ⟨fun _ => ?_, fun hc => absurd hc hcur, ?_⟩
    · simp [removeAndReselect, if_neg hcur]
    · simp only [removeAndReselect, if_neg hcur]
      exact keys_filter_ne tv.tabs tabId

theorem findTabByPath_exists (tabs : List (Nat × Tab)) (p : String)
    (h : ∃ e ∈ tabs, e.2.filePath = some p) :
    ∃ i, findTabByPath tabs p = some i := by
  induction tabs with
  | nil => simp at h
  | cons e rest ih =>
    by_cases he : e.2.filePath = some p
    · exact ⟨e.1, by simp [findTabByPath, he]⟩
    · obtain ⟨x, hx, hxp⟩ := h
      rcases List.mem_cons.mp hx with rfl | hxr
      · exact absurd hxp he
      · obtain ⟨i, hi⟩ := ih ⟨x, hxr, hxp⟩
        exact ⟨i, by simp [findTabByPath, he, hi]⟩

theorem findTabByPath_mem_keys (tabs : List (Nat × Tab)) (p : String)
    (i : Nat) (h : findTabByPath tabs p = some i) : i ∈ keys tabs := by
  induction tabs with
  | nil => simp [findTabByPath] at h
  | cons e rest ih =>
    by_cases he : e.2.filePath = some p
    · simp [findTabByPath, he] at h
      simp [keys, h]
    · simp [findTabByPath, he] at h
      have hmem := ih h
      simp only [keys, List.map_cons, List.mem_cons]
      right
      simpa [keys] using hmem

theorem findTabByPath_none (tabs : List (Nat × Tab)) (p : String)
    (h : findTabByPath tabs p = none) :
    ∀ e ∈ tabs, e.2.filePath ≠ some p := by
  induction tabs with
  | nil => simp
  | cons e rest ih =>
    by_cases he : e.2.filePath = some p
    · simp [findTabByPath, he] at h
    · simp [findTabByPath, he] at h
      intro x hx
      rcases List.mem_cons.mp hx with rfl | hxr
      · exact he
      · exact ih h x hxr

theorem pathCount_append_single (tabs : List (Nat × Tab)) (i : Nat) (t : Tab)
    (q : String) :
    pathCount (tabs ++ [(i, t)]) q
      = pathCount tabs q + (if t.filePath = some q then 1 else 0) := by
  by_cases ht : t.filePath = some q <;>
    simp [pathCount, List.filter_append, List.filter_cons, ht]

theorem pathCount_eq_zero (tabs : List (Nat × Tab)) (p : String)
    (h : ∀ e ∈ tabs, e.2.filePath ≠ some p) : pathCount tabs p = 0 := by
  simp only [pathCount, List.length_eq_zero]
  exact List.filter_eq_nil_iff.mpr fun e he => by simp [h e he]

end Chix.TabView

/-! ## Claims -/

/-- C1: the claim states that a failed save of a tab backed by an existing
file leaves the on-disk content byte-identical (backup made before the
overwrite, restored on failure).  `TabView.save_tab` has no backup step:
it opens the file in mode `"w"` (truncating it) and writes directly, so a
write that fails after truncation leaves the file empty.  Evaluated here
at a tab whose file holds `"old text"`: the save returns `false` and the
file afterwards holds `""`. -/
theorem claim_C1_save_tab_truncates :
    ((Chix.TabView.mk [(0, Chix.Tab.mk (some "/home/u/a.c") "new text" true)]
        1 (some 0)).saveTab [("/home/u/a.c", "old text")] 0
        (.failWrite "") none .ok).2.2 = false ∧
    Chix.fsGet ((Chix.TabView.mk
        [(0, Chix.Tab.mk (some "/home/u/a.c") "new text" true)]
        1 (some 0)).saveTab [("/home/u/a.c", "old text")] 0
        (.failWrite "") none .ok).2.1 "/home/u/a.c" = some "" ∧
    Chix.fsGet [("/home/u/a.c", "old text")] "/home/u/a.c" = some "old text" := by
  decide

/-- C4 counterexample: the line `"collect2: link failed"` of this stderr
text is non-empty and contains none of the `warning:`/`error:`/`note:`
tokens, and the parse of the whole text keeps only the `error:` line — the
unrecognized line appears nowhere in the output, so it is dropped, not
preserved. -/
theorem claim_C4_counterexample :
    Chix.Compiler.parseCompilerOutput "x.c:1:1: error: bad\ncollect2: link failed"
      = ([], ["x.c:1:1: error: bad"]) ∧
    Chix.pyTrim "collect2: link failed" ≠ "" ∧
    Chix.Compiler.hasToken "collect2: link failed" "warning:" = false ∧
    Chix.Compiler.hasToken "collect2: link failed" "error:" = false ∧
    Chix.Compiler.hasToken "collect2: link failed" "note:" = false := by
  decide

/-- C4 (amended): a non-empty line containing none of the
`warning:`/`error:`/`note:` tokens falls through the `if/elif` chain of
`_parse_compiler_output` and is dropped: it leaves the parse state
unchanged and so never reaches the output. -/
theorem claim_C4_unrecognized_line_dropped (w e : List String) (line : String)
    (hne : Chix.pyTrim line ≠ "")
    (hw : Chix.Compiler.hasToken line "warning:" = false)
    (he : Chix.Compiler.hasToken line "error:" = false)
    (hn : Chix.Compiler.hasToken line "note:" = false) :
    Chix.Compiler.parseStep (w, e) line = (w, e) := by
  simp [Chix.Compiler.parseStep, hne, hw, he, hn]

/-- C4 witness. -/
theorem claim_C4_unrecognized_line_dropped_witness :
    Chix.Compiler.parseStep (["w"], ["e"]) "collect2: link failed"
      = (["w"], ["e"]) :=
  claim_C4_unrecognized_line_dropped ["w"] ["e"] "collect2: link failed"
    (by decide) (by decide) (by decide) (by decide)

/-- C5 counterexample: in
`"a error: bad\nb warning: odd\nc note: info"` the diagnostic immediately
preceding the note line is the warning, yet the parse leaves the warning
entry untouched and attaches the note to the earlier error; and a note
with no preceding diagnostic (`"only note: x"`) is dropped entirely rather
than attached to some diagnostic. -/
theorem claim_C5_counterexample :
    Chix.Compiler.parseCompilerOutput "a error: bad\nb warning: odd\nc note: info"
      = (["b warning: odd"], ["a error: bad\nc note: info"]) ∧
    Chix.Compiler.parseCompilerOutput "only note: x" = ([], []) := by
  decide

/-- C5 (amended): a `note:` line (not itself a warning or error line) is
appended to the LAST error collected so far when any error exists, else to
the last warning when any warning exists, and is dropped when no
diagnostic precedes it. -/
theorem claim_C5_note_attachment (w e : List String) (line : String)
    (hne : Chix.pyTrim line ≠ "")
    (hw : Chix.Compiler.hasToken line "warning:" = false)
    (he : Chix.Compiler.hasToken line "error:" = false)
    (hn : Chix.Compiler.hasToken line "note:" = true) :
    (e ≠ [] → Chix.Compiler.parseStep (w, e) line
        = (w, e.dropLast ++ [e.getLastD "" ++ "\n" ++ line])) ∧
    (e = [] → w ≠ [] → Chix.Compiler.parseStep (w, e) line
        = (w.dropLast ++ [w.getLastD "" ++ "\n" ++ line], e)) ∧
    (e = [] → w = [] → Chix.Compiler.parseStep (w, e) line = (w, e)) := by
  refine ⟨fun hne' => ?_, fun he' hw' => ?_, fun he' hw' => ?_⟩
  · cases e with
    | nil => exact absurd rfl hne'
    | cons x xs =>
      simp [Chix.Compiler.parseStep, hne, hw, he, hn,
        Chix.Compiler.appendToLast_eq (x :: xs) line (by simp)]
  · cases w with
    | nil => exact absurd rfl hw'
    | cons x xs =>
      subst he'
      simp [Chix.Compiler.parseStep, hne, hw, he, hn,
        Chix.Compiler.appendToLast_eq (x :: xs) line (by simp)]
  · subst he'; subst hw'
    simp [Chix.Compiler.parseStep, hne, hw, he, hn]

/-- C5 witness. -/
theorem claim_C5_note_attachment_witness :
    Chix.Compiler.parseStep (["w1"], ["e1", "e2"]) "x note: n"
      = (["w1"], ["e1", "e2" ++ "\n" ++ "x note: n"]) :=
  (claim_C5_note_attachment ["w1"] ["e1", "e2"] "x note: n"
    (by decide) (by decide) (by decide) (by decide)).1 (by decide)

/-- The default output path constructed by `Compiler.compile` is never the
empty string (it starts with the fixed temp directory). -/
theorem defaultOutputPath_ne_empty (sourcePath : String) :
    Chix.Compiler.defaultOutputPath sourcePath ≠ "" := by
  intro h
  have := congrArg String.length h
  simp [Chix.Compiler.defaultOutputPath, String.length_append,
    Chix.Compiler.compilerTempDir] at this
  exact absurd this.1 (by decide)

/-- C3: when `Compiler.compile` reaches the external compiler (a compiler
was detected, the source file exists, and no stale executable blocked the
run) and the subprocess exits: exit code 0 yields `success = true` with a
populated (non-empty) executable path, and a nonzero exit code yields
`success = false` with an empty (`none`) executable path. -/
theorem claim_C3_compile_exit_code (compilerPath : Option String)
    (sourcePath : String) (outputPathArg : Option String)
    (prevExecExists removeOk : Bool) (exitCode : Int) (stderrText : String)
    (hc : compilerPath.isSome)
    (hr : ¬(prevExecExists = true ∧ removeOk = false)) :
    (exitCode = 0 →
      (Chix.Compiler.compile compilerPath true sourcePath outputPathArg
          prevExecExists removeOk (.exited exitCode stderrText)).success = true ∧
      ∃ p, (Chix.Compiler.compile compilerPath true sourcePath outputPathArg
          prevExecExists removeOk (.exited exitCode stderrText)).executablePath
            = some p ∧ p ≠ "") ∧
    (exitCode ≠ 0 →
      (Chix.Compiler.compile compilerPath true sourcePath outputPathArg
          prevExecExists removeOk (.exited exitCode stderrText)).success = false ∧
      (Chix.Compiler.compile compilerPath true sourcePath outputPathArg
          prevExecExists removeOk (.exited exitCode stderrText)).executablePath
            = none) := by
  obtain ⟨c, rfl⟩ := Option.isSome_iff_exists.mp hc
  have hro : ¬(prevExecExists = true ∧ removeOk = false) := hr
  constructor
  · intro h0
    subst h0
    refine ⟨?_, ?_⟩
    · simp [Chix.Compiler.compile, hro]
    · by_cases ht : Chix.strTruthy outputPathArg
      · cases outputPathArg with
        | none => simp [Chix.strTruthy] at ht
        | some p =>
          refine ⟨p, ?_, ?_⟩
          · simp [Chix.Compiler.compile, hro, ht]
          · simpa [Chix.strTruthy] using ht
      · refine ⟨Chix.Compiler.defaultOutputPath sourcePath, ?_,
          defaultOutputPath_ne_empty sourcePath⟩
        simp [Chix.Compiler.compile, hro, ht]
  · intro hne
    constructor <;> simp [Chix.Compiler.compile, hro, hne]

/-- C3 witness. -/
theorem claim_C3_compile_exit_code_witness :
    (Chix.Compiler.compile (some "gcc") true "/home/u/prog.c" none false true
        (.exited 0 "")).success = true :=
  ((claim_C3_compile_exit_code (some "gcc") "/home/u/prog.c" none false true
      0 "" (by decide) (by simp)).1 rfl).1

/-- C9 counterexample: a directory with a loadable sidecar config
recording TWO recent files still opens the first one, refuting "opens a
recorded recent file exactly when exactly one recent file is recorded". -/
theorem claim_C9_counterexample :
    (Chix.Project.openProject
        (Chix.Project.PMEnv.mk true
          (some (some (Chix.Project.ProjectConfigRec.mk
            [("theme_mode", "dark")] ["a.c", "b.c"])))
          true ["/proj/a.c"])
        "/proj").openedFile = some "/proj/a.c" ∧
    (["a.c", "b.c"] : List String).length ≠ 1 := by
  decide

/-- C9 (amended): `open_project` returns `false` on a non-directory; on a
directory with a loadable sidecar config it succeeds, applies the config's
settings to the shared state, and opens the FIRST recorded recent file
exactly when at least one recent file is recorded, a main panel is
registered, and the joined path exists on disk. -/
theorem claim_C9_open_project (env : Chix.Project.PMEnv) (p : String) :
    (env.isDir = false → (Chix.Project.openProject env p).ok = false) ∧
    (∀ cfg, env.isDir = true →
      env.configLoad = some (some cfg) →
      (Chix.Project.openProject env p).ok = true ∧
      (Chix.Project.openProject env p).appliedSettings = some cfg.settings ∧
      ((∃ f, (Chix.Project.openProject env p).openedFile = some f) ↔
        (env.hasMainPanel = true ∧ cfg.recentFiles ≠ [] ∧
          Chix.Project.joinPath p (cfg.recentFiles.headD "")
            ∈ env.existingFiles)) ∧
      (∀ f, (Chix.Project.openProject env p).openedFile = some f →
        f = Chix.Project.joinPath p (cfg.recentFiles.headD ""))) := by
  constructor
  · intro hdir
    simp [Chix.Project.openProject, hdir]
  · intro cfg hdir hcfg
    refine ⟨?_, ?_, ?_, ?_⟩
    · simp [Chix.Project.openProject, hdir, hcfg]
    · simp [Chix.Project.openProject, hdir, hcfg]
    · by_cases hmp : env.hasMainPanel = true ∧ cfg.recentFiles ≠ []
      · by_cases hex : Chix.Project.joinPath p (cfg.recentFiles.headD "")
            ∈ env.existingFiles
        · simp [Chix.Project.openProject, hdir, hcfg, hmp, hex]
        · simp [Chix.Project.openProject, hdir, hcfg, hmp, hex]
      · simp [Chix.Project.openProject, hdir, hcfg, hmp]
        intro h1 h2
        exact absurd ⟨h1, h2⟩ hmp
    · intro f hf
      simp only [List.headD_eq_head?]
      by_cases hmp : env.hasMainPanel = true ∧ cfg.recentFiles ≠ []
      · by_cases hex : Chix.Project.joinPath p (cfg.recentFiles.head?.getD "")
            ∈ env.existingFiles
        · simp [Chix.Project.openProject, hdir, hcfg, hmp, hex] at hf
          exact hf.symm
        · simp [Chix.Project.openProject, hdir, hcfg, hmp, hex] at hf
      · simp [Chix.Project.openProject, hdir, hcfg, hmp] at hf

/-- C9 witness. -/
theorem claim_C9_open_project_witness :
    (Chix.Project.openProject
        (Chix.Project.PMEnv.mk false none false []) "/nodir").ok = false :=
  (claim_C9_open_project (Chix.Project.PMEnv.mk false none false [])
    "/nodir").1 rfl

/-- C6: `Interpreter.interpret_code` removes its private temp file on
every exit path — after a successful write the file is interpreted and
then removed, and the exception handler removes any file left by a
failed or partial write — so the temp file never exists when the call
returns (with `os.remove` on an existing file succeeding). -/
theorem claim_C6_interpret_temp_removed (prevTemp : Option String)
    (code : String) (ev : Chix.WriteEv) (errStr : String)
    (runRes : Chix.Interpreter.InterpretationResult) :
    (Chix.Interpreter.interpretCode prevTemp code ev errStr runRes).1 = none := by
  cases ev with
  | ok => simp [Chix.Interpreter.interpretCode, Chix.Interpreter.tempFileAfterWrite]
  | failOpen =>
    cases prevTemp <;>
      simp [Chix.Interpreter.interpretCode, Chix.Interpreter.tempFileAfterWrite]
  | failWrite w =>
    simp [Chix.Interpreter.interpretCode, Chix.Interpreter.tempFileAfterWrite]


/-- C2: starting from any state satisfying the tab-collection invariant
(non-empty with a valid active id — every state the GUI reaches), the
collection is non-empty after every finite sequence of
`create_tab`/`close_tab` operations; in particular, closing the last
remaining tab leaves exactly one fresh empty untitled tab, created before
`close_tab` returns. -/
theorem claim_C2_collection_never_empty (tv : Chix.TabView) (fs : Chix.FS)
    (h : Chix.TabView.Inv tv) :
    (∀ ops : List Chix.TabOp, (Chix.applyOps tv fs ops).1.tabs ≠ []) ∧
    (∀ (fs' : Chix.FS) (tabId : Nat) (tab : Chix.Tab) (sy : Bool)
        (ev : Chix.WriteEv) (pp : Option String) (evAs : Chix.WriteEv),
      tv.tabs = [(tabId, tab)] →
      (tv.closeTab fs' tabId sy ev pp evAs).1.tabs
        = [(tv.tabCounter, Chix.Tab.mk none "" false)]) := by
  constructor
  · intro ops
    exact (Chix.TabView.applyOps_inv ops tv fs h).1
  · intro fs' tabId tab sy ev pp evAs hsing
    exact Chix.TabView.closeTab_singleton tv fs' tabId tab sy ev pp evAs h hsing

/-- C2 witness. -/
theorem claim_C2_collection_never_empty_witness :
    (Chix.applyOps (Chix.TabView.mk [(0, Chix.Tab.mk none "" false)] 1 (some 0))
        [] [Chix.TabOp.close 0 false .ok none .ok]).1.tabs ≠ [] :=
  (claim_C2_collection_never_empty
    (Chix.TabView.mk [(0, Chix.Tab.mk none "" false)] 1 (some 0)) []
    ⟨by simp, 0, rfl, by simp [Chix.TabView.keys]⟩).1
    [Chix.TabOp.close 0 false .ok none .ok]

/-- C7: for a tab with no file path, `save_tab` (via `save_tab_as`)
returns `true` exactly when the save dialog produced a truthy path and the
write to it succeeded; in that case the tab gets that path and its
modified flag is cleared, and in every other case (dialog cancelled or
write failed) the view is completely unchanged, so the tab keeps
`modified = true` and `filePath = none`. -/
theorem claim_C7_save_untitled (tv : Chix.TabView) (fs : Chix.FS)
    (tabId : Nat) (tab : Chix.Tab) (ev : Chix.WriteEv)
    (pp : Option String) (evAs : Chix.WriteEv)
    (hlk : Chix.TabView.lookupTab tv.tabs tabId = some tab)
    (hfp : tab.filePath = none) (hmod : tab.modified = true) :
    ((tv.saveTab fs tabId ev pp evAs).2.2 = true ↔
       Chix.strTruthy pp = true ∧ evAs = .ok) ∧
    ((tv.saveTab fs tabId ev pp evAs).2.2 = true →
       ∃ p, pp = some p ∧
         Chix.TabView.lookupTab (tv.saveTab fs tabId ev pp evAs).1.tabs tabId
           = some (Chix.Tab.mk (some p) tab.content false)) ∧
    ((tv.saveTab fs tabId ev pp evAs).2.2 = false →
       (tv.saveTab fs tabId ev pp evAs).1 = tv) := by
  have hsaveAs : tv.saveTab fs tabId ev pp evAs
      = tv.saveTabAs fs tabId pp evAs := by
    unfold Chix.TabView.saveTab
    rw [hlk]
    simp [hfp, Chix.strTruthy]
  rw [hsaveAs]
  unfold Chix.TabView.saveTabAs
  rw [hlk]
  by_cases hp : Chix.strTruthy pp = true
  · cases pp with
    | none => simp [Chix.strTruthy] at hp
    | some p =>
      cases evAs with
      | ok =>
        refine ⟨by simp [hp, Chix.fsWrite], fun _ => ⟨p, rfl, ?_⟩,
          by simp [hp, Chix.fsWrite]⟩
        simp [hp, Chix.fsWrite, Chix.TabView.markModified]
        rw [Chix.TabView.lookupTab_updateTab,
          Chix.TabView.lookupTab_updateTab, hlk]
        cases tab
        simp_all
      | failOpen =>
        exact ⟨by simp [hp, Chix.fsWrite], by simp [hp, Chix.fsWrite],
          by simp [hp, Chix.fsWrite]⟩
      | failWrite w =>
        exact ⟨by simp [hp, Chix.fsWrite], by simp [hp, Chix.fsWrite],
          by simp [hp, Chix.fsWrite]⟩
  · simp only [hp]
    refine ⟨?_, by simp [if_neg, hp], ?_⟩
    · rw [if_neg (by simp [hp])]
      simp [hp]
    · rw [if_neg (by simp [hp])]
      intro
      rfl

/-- C7 witness. -/
theorem claim_C7_save_untitled_witness :
    ((Chix.TabView.mk [(0, Chix.Tab.mk none "hello" true)] 1
        (some 0)).saveTab [] 0 .ok (some "/new.c") .ok).2.2 = true :=
  (claim_C7_save_untitled
    (Chix.TabView.mk [(0, Chix.Tab.mk none "hello" true)] 1 (some 0)) []
    0 (Chix.Tab.mk none "hello" true) .ok (some "/new.c") .ok
    (by decide) rfl rfl).1.mpr ⟨by decide, rfl⟩

/-- C8: closing a tab in a collection of at least two tabs (with the
distinct keys a Python dict guarantees): if the closed tab is not the
active one, the active tab is unchanged; if it is the active one, the new
active tab is the first key in the remaining display order, and any
resulting active id is a key present in the remaining collection. -/
theorem claim_C8_close_tab_selection (tv : Chix.TabView) (fs : Chix.FS)
    (tabId : Nat) (sy : Bool) (ev : Chix.WriteEv) (pp : Option String)
    (evAs : Chix.WriteEv)
    (hnd : (Chix.TabView.keys tv.tabs).Nodup)
    (hlen : 2 ≤ tv.tabs.length)
    (hmem : tabId ∈ Chix.TabView.keys tv.tabs) :
    (tv.currentTabId ≠ some tabId →
       (tv.closeTab fs tabId sy ev pp evAs).1.currentTabId
         = tv.currentTabId) ∧
    (tv.currentTabId = some tabId →
       (tv.closeTab fs tabId sy ev pp evAs).1.currentTabId
         = ((Chix.TabView.keys tv.tabs).filter fun k => k ≠ tabId).head? ∧
       ∀ k, (tv.closeTab fs tabId sy ev pp evAs).1.currentTabId = some k →
         k ∈ Chix.TabView.keys (tv.closeTab fs tabId sy ev pp evAs).1.tabs) := by
  obtain ⟨tab, hlk⟩ := Chix.TabView.lookupTab_exists_of_mem tv.tabs tabId hmem
  obtain ⟨hk, hc, hn⟩ := Chix.TabView.savedStep_pres tv fs tabId ev pp evAs
    (tab.modified = true ∧ sy = true)
  set sav : Chix.TabView × Chix.FS × Bool :=
    if tab.modified = true ∧ sy = true then tv.saveTab fs tabId ev pp evAs
    else (tv, fs, false) with hsav
  have hred : tv.closeTab fs tabId sy ev pp evAs
      = Chix.TabView.removeAndReselect sav.1 sav.2.1 tabId := by
    unfold Chix.TabView.closeTab
    rw [hlk]
  have hlenk : 2 ≤ (Chix.TabView.keys tv.tabs).length := by
    simpa [Chix.TabView.keys] using hlen
  have hkf : (Chix.TabView.keys tv.tabs).filter (fun k => k ≠ tabId) ≠ [] :=
    Chix.TabView.filter_ne_nonempty _ _ hnd hlenk
  have hremne : sav.1.tabs.filter (fun e => e.1 ≠ tabId) ≠ [] := by
    intro hemp
    apply hkf
    rw [← hk, ← Chix.TabView.keys_filter_ne, hemp]
    rfl
  obtain ⟨hA, hB, hkeys⟩ :=
    Chix.TabView.removeAndReselect_spec sav.1 sav.2.1 tabId hremne
  rw [hred]
  refine ⟨fun hcur => ?_, fun hcur => ⟨?_, ?_⟩⟩
  · rw [hA (by rw [hc]; exact hcur), hc]
  · rw [hB (by rw [hc]; exact hcur), hk]
  · intro k hkk
    have h2 := hB (by rw [hc]; exact hcur)
    rw [h2] at hkk
    rw [hkeys, hk, ← hk]
    exact List.mem_of_mem_head? (by rw [hkk]; rfl)

/-- C8 witness. -/
theorem claim_C8_close_tab_selection_witness :
    ((Chix.TabView.mk
        [(0, Chix.Tab.mk none "" false), (1, Chix.Tab.mk none "" false)]
        2 (some 0)).closeTab [] 1 false .ok none .ok).1.currentTabId
      = some 0 :=
  (claim_C8_close_tab_selection
    (Chix.TabView.mk
      [(0, Chix.Tab.mk none "" false), (1, Chix.Tab.mk none "" false)]
      2 (some 0)) [] 1 false .ok none .ok
    (by decide) (by decide) (by decide)).1 (by decide)

/-- C10: if some tab already holds file path `p`, `open_file(p)` selects
the first such tab and returns its id, leaving the tab list unchanged (no
new tab is created); and `open_file` preserves the property that no file
path is held by more than one tab. -/
theorem claim_C10_open_file_no_duplicates (tv : Chix.TabView) (fs : Chix.FS)
    (p : String) :
    ((∃ e ∈ tv.tabs, e.2.filePath = some p) →
      ∃ tabId, Chix.TabView.findTabByPath tv.tabs p = some tabId ∧
        tv.openFile fs p = (tv.selectTab tabId, tabId) ∧
        (tv.openFile fs p).1.tabs = tv.tabs ∧
        tabId ∈ Chix.TabView.keys tv.tabs) ∧
    ((∀ q, Chix.TabView.pathCount tv.tabs q ≤ 1) →
      ∀ q, Chix.TabView.pathCount (tv.openFile fs p).1.tabs q ≤ 1) := by
  constructor
  · intro hex
    obtain ⟨i, hi⟩ := Chix.TabView.findTabByPath_exists tv.tabs p hex
    refine ⟨i, hi, ?_, ?_, Chix.TabView.findTabByPath_mem_keys tv.tabs p i hi⟩
    · unfold Chix.TabView.openFile
      rw [hi]
    · unfold Chix.TabView.openFile
      rw [hi]
      exact Chix.TabView.selectTab_tabs tv i
  · intro hbound q
    cases hfind : Chix.TabView.findTabByPath tv.tabs p with
    | some i =>
      unfold Chix.TabView.openFile
      rw [hfind]
      simpa [Chix.TabView.selectTab_tabs] using hbound q
    | none =>
      unfold Chix.TabView.openFile
      rw [hfind, Chix.TabView.createTab_tabs_eq,
        Chix.TabView.pathCount_append_single]
      by_cases hq : q = p
      · subst hq
        rw [Chix.TabView.pathCount_eq_zero tv.tabs q
          (Chix.TabView.findTabByPath_none tv.tabs q hfind)]
        simp
      · have hne : (Chix.Tab.mk (some p)
            (Chix.TabView.initialContent fs (some p) none) false).filePath
              ≠ some q := by
          simp [Ne.symm hq]
        rw [if_neg hne]
        exact hbound q

/-- C10 witness. -/
theorem claim_C10_open_file_no_duplicates_witness :
    ((Chix.TabView.mk [(0, Chix.Tab.mk (some "/a.c") "x" false)] 1
        (some 0)).openFile [] "/a.c").1.tabs
      = [(0, Chix.Tab.mk (some "/a.c") "x" false)] := by
  obtain ⟨i, hi, hopen, htabs, hmemk⟩ :=
    (claim_C10_open_file_no_duplicates
      (Chix.TabView.mk [(0, Chix.Tab.mk (some "/a.c") "x" false)] 1
        (some 0)) [] "/a.c").1
      ⟨(0, Chix.Tab.mk (some "/a.c") "x" false), by simp, rfl⟩
  exact htabs
